import Mathlib

/-!
Verification development for the HarmWatch repository (src/utils.py).

The file shallowly embeds the analysis helpers of `utils.py`: the CSV loader
with its encoding fallback and column-name deduplication, and the seven
presentation components (overview, missing values, distributions, correlation,
time series, categorical, text).  DataFrames become a `Table` of named, typed
columns whose cells are optional values (a missing cell models NaN/NaT), and
the pandas library calls used by the code are embedded as executable Lean
functions over that model.
-/

namespace HarmWatch

/-! ### Decimal rendering of naturals, modelling Python `str(int)` -/

/-- Character of one decimal digit (`str` renders digits as codepoints 48+d). -/
def digitCh (d : ℕ) : Char := Char.ofNat (48 + d)

/-- Fuel-driven most-significant-first decimal digit list of a natural number.
Fuel `f` is sufficient whenever `n < 10 ^ (f + 1)`. -/
def decDigitsAux : ℕ → ℕ → List Char
  | 0, n => if n < 10 then [digitCh n] else []
  | f + 1, n => if n < 10 then [digitCh n] else decDigitsAux f (n / 10) ++ [digitCh (n % 10)]

/-- Decimal digit list of `n` (fuel `n` always suffices). -/
def decDigits (n : ℕ) : List Char := decDigitsAux n n

/-- Python `str(n)` for a natural number. -/
def decStr (n : ℕ) : String := String.mk (decDigits n)

/-! ### Data model: cells, columns, tables -/

/-- A cell value: numbers are rationals, text is a string, timestamps are
integers (an abstract epoch offset). -/
inductive Val where
  | num (q : ℚ)
  | str (s : String)
  | tstamp (t : ℤ)
deriving DecidableEq

/-- Declared dtype of a pandas column. -/
inductive Dtype where
  | int
  | float
  | object
  | category
  | datetime
deriving DecidableEq

/-- One named column: declared dtype plus cells; `none` is a missing value
(NaN/NaT). -/
structure Column where
  name : String
  dtype : Dtype
  cells : List (Option Val)
deriving DecidableEq

/-- A pandas DataFrame: an ordered sequence of named columns. -/
structure Table where
  cols : List Column
deriving DecidableEq

/-- Number of rows (`df.shape[0]`); tables are rectangular, the first column's
length is the row count. -/
def nRows (t : Table) : ℕ :=
  match t.cols with
  | [] => 0
  | c :: _ => c.cells.length

/-- The cells of the column named `name` (`df[name]` under unique names). -/
def colCells (t : Table) (name : String) : List (Option Val) :=
  match t.cols.find? (fun c => c.name == name) with
  | some c => c.cells
  | none => []

/-- `df.select_dtypes(include=[np.number])`: the numeric-dtype columns. -/
def numericView (t : Table) : List Column :=
  t.cols.filter (fun c => c.dtype == Dtype.int || c.dtype == Dtype.float)

/-- `df.select_dtypes(include=["object", "category"])`: the categorical columns. -/
def catView (t : Table) : List Column :=
  t.cols.filter (fun c => c.dtype == Dtype.object || c.dtype == Dtype.category)

/-- `num.loc[:, ~num.columns.duplicated()]`: keep only the first column of each
name. -/
def dedupFirstCols : List Column → List Column
  | [] => []
  | c :: cs => c :: (dedupFirstCols cs).filter (fun c2 => c2.name != c.name)

/-- `DataFrame.empty`: true when there are no columns or no rows. -/
def colsEmpty (cs : List Column) : Bool :=
  cs.isEmpty || cs.all (fun c => c.cells.isEmpty)

/-- Numeric reading of a cell (`none` for missing or non-numeric cells). -/
def numCell : Option Val → Option ℚ
  | some (Val.num q) => some q
  | _ => none

/-- The numeric cell list of a column. -/
def numCells (c : Column) : List (Option ℚ) := c.cells.map numCell

/-- Number of missing cells of a column (`df[c].isnull().sum()`). -/
def missingCount (c : Column) : ℕ := (c.cells.filter (fun x => x.isNone)).length

/-- Rendering of a cell value as text (`astype(str)` elementwise). -/
def toStr : Val → String
  | Val.num q => toString q
  | Val.str s => s
  | Val.tstamp t => toString t

/-! ### Column-name deduplication (pandas `ParserBase._maybe_dedup_names`) -/

/-- Lookup in the association list of name counts (0 when absent). -/
def cnt (m : List (String × ℕ)) (k : String) : ℕ :=
  match m.find? (fun p => p.1 == k) with
  | some p => p.2
  | none => 0

/-- Length of the longest key recorded in the count map. -/
def maxKeyLen (m : List (String × ℕ)) : ℕ :=
  m.foldr (fun p acc => max p.1.length acc) 0

/-- One placement step of pandas `_maybe_dedup_names`: starting from the header
name `col`, while `counts[col]` is positive set `counts[col] := counts[col] + 1`
and move to `col ++ "." ++ str(counts[col])`; place the first candidate whose
count is zero, recording count 1 for it.  `fuel` bounds the collision loop;
`maxKeyLen m + 1` always suffices because every candidate visited by the loop
is a key of `m` and candidates strictly grow in length. -/
def dedupGo : ℕ → List (String × ℕ) → String → String × List (String × ℕ)
  | 0, m, col => if cnt m col = 0 then (col, (col, 1) :: m) else (col, m)
  | f + 1, m, col =>
    if cnt m col = 0 then (col, (col, 1) :: m)
    else dedupGo f ((col, cnt m col + 1) :: m) (col ++ "." ++ decStr (cnt m col))

/-- Place one header name with sufficient fuel. -/
def dedupOne (m : List (String × ℕ)) (col : String) : String × List (String × ℕ) :=
  dedupGo (maxKeyLen m + 1) m col

/-- Fold `dedupOne` over the header, threading the count map. -/
def dedupAux : List String → List (String × ℕ) → List String
  | [], _ => []
  | n :: rest, m =>
    let r := dedupOne m n
    r.1 :: dedupAux rest r.2

/-- pandas `_maybe_dedup_names` (mangle duplicate columns) on a header. -/
def dedupNames (names : List String) : List String := dedupAux names []

/-- Modelled from the claim wording of C2: the first occurrence of a name keeps
the name, the (j+1)-st occurrence gets `"." ++ str(j)` appended. -/
def specDedupAux : List String → List String → List String
  | [], _ => []
  | n :: rest, seen =>
    (if seen.count n = 0 then n else n ++ "." ++ decStr (seen.count n)) ::
      specDedupAux rest (seen ++ [n])

/-- Claim-side renaming rule for a whole header. -/
def specDedup (names : List String) : List String := specDedupAux names []

/-- Whether a string holds a dot. -/
def hasDot (s : String) : Bool := s.data.contains '.'

/-- Split a character list at its first dot: the part before and the part
after (junk second component when no dot occurs). -/
def dotSplit : List Char → List Char × List Char
  | [] => ([], [])
  | c :: cs => if c = '.' then ([], cs) else (c :: (dotSplit cs).1, (dotSplit cs).2)

/-- Reference count function for the dedup invariant: the count map reached
after processing the dot-free header prefix `seen` holds, for a dot-free name,
its number of occurrences in `seen`; it holds count 1 for each generated name
`b ++ "." ++ str j` with `1 ≤ j <` occurrences of the dot-free base `b`; every
other string has count 0. -/
def refCnt (seen : List String) (x : String) : ℕ :=
  if hasDot x then
    (if (List.range (seen.count (String.mk (dotSplit x.data).1))).any
        (fun j => j != 0 && (dotSplit x.data).2 == (decStr j).data) then 1 else 0)
  else seen.count x

/-- Table with its column names replaced by the deduplicated header. -/
def applyDedup (t : Table) : Table :=
  ⟨(t.cols.zip (dedupNames (t.cols.map (fun c => c.name)))).map
      (fun p => { p.1 with name := p.2 })⟩

/-- Loader failure taxonomy. -/
inductive LoadError where
  | unparseableInput
deriving DecidableEq

/-- `load_data`: first `pd.read_csv` attempt with the default encoding; exactly
on its failure the single latin1 retry; failure of both surfaces as the terminal
`UnparseableInput` condition.  The two parse attempts are abstracted as their
optional results.  After a successful parse, column names are deduplicated. -/
def load_data (attemptDefault attemptLatin1 : Option Table) : Except LoadError Table :=
  match attemptDefault with
  | some t => Except.ok (applyDedup t)
  | none =>
    match attemptLatin1 with
    | some t => Except.ok (applyDedup t)
    | none => Except.error LoadError.unparseableInput

/-! ### Frequency ranking (pandas `value_counts` / `Counter.most_common`) -/

/-- Distinct values of a list in first-encounter order. -/
def firstUniq {α : Type} [DecidableEq α] : List α → List α
  | [] => []
  | x :: xs => x :: (firstUniq xs).filter (fun y => y != x)

/-- Value/count pairs in first-encounter order of the values. -/
def countsFE {α : Type} [DecidableEq α] (l : List α) : List (α × ℕ) :=
  (firstUniq l).map (fun v => (v, l.count v))

/-- Stable descending insertion by count: `x` goes before the first element
whose count is not larger, so earlier-ranked elements keep their position on
ties. -/
def insertDesc {α : Type} : α × ℕ → List (α × ℕ) → List (α × ℕ)
  | x, [] => [x]
  | x, y :: ys => if y.2 ≤ x.2 then x :: y :: ys else y :: insertDesc x ys

/-- Stable descending insertion sort by count. -/
def sortDescByCount {α : Type} : List (α × ℕ) → List (α × ℕ)
  | [] => []
  | x :: xs => insertDesc x (sortDescByCount xs)

/-- Occurrence ranking of a list: counts per distinct value, sorted descending
by count, ties in first-encounter order. -/
def rankByCount {α : Type} [DecidableEq α] (l : List α) : List (α × ℕ) :=
  sortDescByCount (countsFE l)

/-- `Series.value_counts()`: missing cells dropped, then the occurrence
ranking. -/
def value_counts (cells : List (Option Val)) : List (Val × ℕ) :=
  rankByCount (cells.filterMap id)

/-! ### Text tokenization (`show_text_analysis`) -/

/-- The punctuation characters stripped by the token normalisation. -/
def punctChars : List Char :=
  ['.', ',', '!', '?', ':', ';', '(', ')', '[', ']', '"', '\'']

/-- Python `str.strip(chars)` on a character list: remove leading and trailing
characters belonging to `cs`. -/
def stripList (cs : List Char) (l : List Char) : List Char :=
  ((l.dropWhile (fun c => cs.contains c)).reverse.dropWhile (fun c => cs.contains c)).reverse

/-- `w.strip(".,!?:;()[]\"'")`. -/
def pstrip (s : String) : String := String.mk (stripList punctChars s.data)

/-- `w.lower()`. -/
def lowerStr (s : String) : String := String.mk (s.data.map Char.toLower)

/-- Python `str.strip()` (whitespace), used by `if not sample_text.strip()`. -/
def stripWsStr (s : String) : String :=
  String.mk (((s.data.dropWhile Char.isWhitespace).reverse.dropWhile Char.isWhitespace).reverse)

/-- Accumulator-style whitespace splitter (Python `str.split()` drops empty
fields). -/
def wordsAux : List Char → List Char → List String
  | [], acc => if acc.isEmpty then [] else [String.mk acc.reverse]
  | c :: rest, acc =>
    if c.isWhitespace then
      if acc.isEmpty then wordsAux rest [] else String.mk acc.reverse :: wordsAux rest []
    else wordsAux rest (c :: acc)

/-- `sample_text.split()`. -/
def splitWs (s : String) : List String := wordsAux s.data []

/-- The token list of `show_text_analysis`:
`[w.lower().strip(".,!?:;()[]\"'") for w in sample_text.split() if len(w) > 2]`.
The length filter applies to the raw whitespace token `w`. -/
def tokenize (s : String) : List String :=
  ((splitWs s).filter (fun w => 2 < w.length)).map (fun w => pstrip (lowerStr w))

/-- Modelled from the claim wording of C1: split, lower-case, strip punctuation,
and then discard tokens whose (stripped) length is at most 2. -/
def claimTokens (s : String) : List String :=
  (splitWs s).filterMap (fun w =>
    let tk := pstrip (lowerStr w)
    if tk.length ≤ 2 then none else some tk)

/-- The amended pipeline: split, discard raw tokens of length at most 2, then
lower-case and strip punctuation. -/
def claimTokensAmended (s : String) : List String :=
  (splitWs s).filterMap (fun w =>
    if w.length ≤ 2 then none else some (pstrip (lowerStr w)))

/-- `" ".join(df[col].dropna().astype(str).head(100).tolist())`. -/
def buildSample (cells : List (Option Val)) : String :=
  String.intercalate " " (((cells.filterMap id).map toStr).take 100)

/-- Output of the Text Explorer: the word-cloud parameters from the source
(800×400, white background, collocations disabled) and the top-20 token
ranking. -/
inductive TextOut where
  | noTextCols
  | noTextData
  | report (cloudW cloudH : ℕ) (bg : String) (collocations : Bool)
      (topWords : List (String × ℕ))
deriving DecidableEq

/-- `show_text_analysis`. -/
def show_text_analysis (t : Table) (selText : List String → String) : TextOut :=
  let textCols := (t.cols.filter (fun c => c.dtype == Dtype.object)).map (fun c => c.name)
  if textCols.isEmpty then TextOut.noTextCols
  else
    let col := selText textCols
    let sample := buildSample (colCells t col)
    if (stripWsStr sample).isEmpty then TextOut.noTextData
    else TextOut.report 800 400 "white" false ((rankByCount (tokenize sample)).take 20)

/-! ### Rolling mean (`show_time_series`, lines 140–144) -/

/-- `df_dt[val_col].notnull().sum()`. -/
def nonnullCount (v : List (Option ℚ)) : ℕ := (v.filterMap id).length

/-- `Series.rolling(window, min_periods=1).mean()`: at each row the mean of the
non-null entries of the trailing window, `none` when the window holds no
observation. -/
def rollingMeanList (v : List (Option ℚ)) (w : ℕ) : List (Option ℚ) :=
  (List.range v.length).map (fun i =>
    let obs := ((v.take (i + 1)).drop (i + 1 - w)).filterMap id
    if obs.length = 0 then none else some (obs.sum / (obs.length : ℚ)))

/-- The rolling-mean trace of the Time-Series Explorer: added exactly when the
non-null count of the value column reaches the window size. -/
def tsRollingTrace (v : List (Option ℚ)) (w : ℕ) : Option (List (Option ℚ)) :=
  if w ≤ nonnullCount v then some (rollingMeanList v w) else none

/-! ### Correlation Explorer (`show_correlation`) -/

/-- Pairwise-complete observations of two cell lists. -/
def completePairs (xs ys : List (Option ℚ)) : List (ℚ × ℚ) :=
  (xs.zip ys).filterMap (fun p =>
    match p with
    | (some a, some b) => some (a, b)
    | _ => none)

/-- Pearson moments of two columns over pairwise-complete observations:
observation count `n`, `n·Σxy − Σx·Σy`, `n·Σx² − (Σx)²`, `n·Σy² − (Σy)²`.
Pearson's r is the second component divided by the square root of the product
of the last two; the moments determine r exactly while staying rational. -/
def pearsonMoments (xs ys : List (Option ℚ)) : ℕ × ℚ × ℚ × ℚ :=
  let ps := completePairs xs ys
  let n : ℚ := (ps.length : ℚ)
  (ps.length,
   n * (ps.map (fun p => p.1 * p.2)).sum - (ps.map Prod.fst).sum * (ps.map Prod.snd).sum,
   n * (ps.map (fun p => p.1 * p.1)).sum - (ps.map Prod.fst).sum ^ 2,
   n * (ps.map (fun p => p.2 * p.2)).sum - (ps.map Prod.snd).sum ^ 2)

/-- Output of the Correlation Explorer. -/
inductive CorrOut where
  | insufficient
  | matrix (names : List String) (entries : List (List (ℕ × ℚ × ℚ × ℚ)))
deriving DecidableEq

/-- `show_correlation`: numeric columns, duplicates removed keeping the first of
each name; fewer than two of them reports insufficiency, otherwise `num.corr()`
over exactly those columns. -/
def show_correlation (t : Table) : CorrOut :=
  let num := dedupFirstCols (numericView t)
  if num.length < 2 then CorrOut.insufficient
  else
    CorrOut.matrix (num.map (fun c => c.name))
      (num.map (fun ci => num.map (fun cj => pearsonMoments (numCells ci) (numCells cj))))

/-! ### Overview and distributions (`show_overview`, `show_distribution`) -/

/-- Descriptive entry of `num.describe()` for one column kept abstractly as
name, non-null count and mean (`none` when the column has no observation);
the further describe statistics are not inspected by any claim. -/
def describeCol (c : Column) : String × ℕ × Option ℚ :=
  let obs := (c.cells.map numCell).filterMap id
  (c.name, obs.length, if obs.length = 0 then none else some (obs.sum / (obs.length : ℚ)))

/-- Output of the Summary Reporter: `numericStats = none` is the
"No numerical columns detected." message branch. -/
structure OverviewOut where
  rows : ℕ
  colsCount : ℕ
  missingCells : ℕ
  dtypeTable : List (String × Dtype × ℕ)
  numericStats : Option (List (String × ℕ × Option ℚ))
deriving DecidableEq

/-- `show_overview`. -/
def show_overview (t : Table) : OverviewOut :=
  let num := numericView t
  { rows := nRows t
    colsCount := t.cols.length
    missingCells := (t.cols.map missingCount).sum
    dtypeTable := t.cols.map (fun c => (c.name, c.dtype, (c.cells.filterMap id).length))
    numericStats := if colsEmpty num then none else some (num.map describeCol) }

/-- Output of the Missing-Value Reporter: per-column positive missing counts
sorted descending, plus the first up-to-10 indices of rows holding a missing
cell. -/
inductive MissOut where
  | noMissing
  | report (counts : List (String × ℕ)) (sampleRows : List ℕ)
deriving DecidableEq

/-- `show_missing`. -/
def show_missing (t : Table) : MissOut :=
  let miss := sortDescByCount
    ((t.cols.map (fun c => (c.name, missingCount c))).filter (fun p => p.2 != 0))
  if miss.isEmpty then MissOut.noMissing
  else
    MissOut.report miss
      (((List.range (nRows t)).filter
          (fun i => t.cols.any (fun c => (c.cells.getD i none).isNone))).take 10)

/-- Output of the Distribution Explorer: `noNumericMsg` is the
"No numerical columns to plot." branch; otherwise histogram column and bins
plus the optional scatter pair (present only with at least two columns). -/
inductive DistOut where
  | noNumericMsg
  | plotted (histCol : String) (bins : ℕ) (scatter : Option (String × String))
deriving DecidableEq

/-- `show_distribution`. -/
def show_distribution (t : Table) (selHist selX selY : List String → String)
    (bins : ℕ) : DistOut :=
  let num := dedupFirstCols (numericView t)
  if colsEmpty num then DistOut.noNumericMsg
  else
    DistOut.plotted (selHist (num.map (fun c => c.name))) bins
      (if 2 ≤ num.length then
        some (selX (num.map (fun c => c.name)), selY (num.map (fun c => c.name)))
      else none)

/-! ### Categorical Explorer (`show_categorical`) -/

/-- Output of the Categorical Explorer: the top-N ranking and the index of the
first row carrying each top value. -/
inductive CatOut where
  | noCatCols
  | report (ranking : List (Val × ℕ)) (sampleRows : List ℕ)
deriving DecidableEq

/-- `show_categorical`. -/
def show_categorical (t : Table) (selCat : List String → String) (topN : ℕ) : CatOut :=
  let cat := catView t
  if colsEmpty cat then CatOut.noCatCols
  else
    let col := selCat (cat.map (fun c => c.name))
    let counts := (value_counts (colCells t col)).take topN
    CatOut.report counts
      (counts.map (fun p =>
        (((List.range (colCells t col).length).find?
            (fun i => (colCells t col).getD i none == some p.1)).getD 0)))

/-! ### Time-Series Explorer (`show_time_series`) and the store semantics -/

/-- Datetime-likeness of one column, parametrised by the timestamp parser `P`
(`pd.to_datetime` on a single text value): either the declared dtype is a
timestamp dtype, or all of the first up-to-20 non-missing values, coerced to
text, parse without error. -/
def isDatetimeLike (P : String → Option ℤ) (c : Column) : Bool :=
  c.dtype == Dtype.datetime ||
    (((c.cells.filterMap id).map toStr).take 20).all (fun s => (P s).isSome)

/-- The detection loop of `show_time_series`: names of datetime-like columns. -/
def detectDatetimeCols (P : String → Option ℤ) (t : Table) : List String :=
  (t.cols.filter (isDatetimeLike P)).map (fun c => c.name)

/-- `pd.to_datetime(_, errors="coerce")` on one cell: timestamps pass through,
other present values parse via their text rendering (`none` on failure models
NaT), missing cells stay missing. -/
def coerceCell (P : String → Option ℤ) : Option Val → Option Val
  | none => none
  | some (Val.tstamp t) => some (Val.tstamp t)
  | some v => (P (toStr v)).map Val.tstamp

/-- In-place assignment `df_dt[dt_col] = pd.to_datetime(df_dt[dt_col],
errors="coerce")`: every column of that name is replaced by its coercion. -/
def coerceDtCol (P : String → Option ℤ) (name : String) (t : Table) : Table :=
  ⟨t.cols.map (fun c =>
    if c.name == name then
      { c with dtype := Dtype.datetime, cells := c.cells.map (coerceCell P) }
    else c)⟩

/-- Keep the rows selected by the mask, in order. -/
def applyMask (mask : List Bool) (cells : List (Option Val)) : List (Option Val) :=
  (mask.zip cells).filterMap (fun p => if p.1 then some p.2 else none)

/-- `df_dt.dropna(subset=[dt_col])`: drop every row whose `dt_col` cell is
missing. -/
def dropnaSubset (name : String) (t : Table) : Table :=
  let mask := (colCells t name).map Option.isSome
  ⟨t.cols.map (fun c => { c with cells := applyMask mask c.cells })⟩

/-- Cell comparison used by the row sort (timestamps, numbers and text compare
within their kind; missing cells sort first). -/
def cellLe : Option Val → Option Val → Bool
  | none, _ => true
  | _, none => false
  | some (Val.tstamp a), some (Val.tstamp b) => a ≤ b
  | some (Val.num a), some (Val.num b) => a ≤ b
  | some (Val.str a), some (Val.str b) => a ≤ b
  | _, _ => true

/-- Stable ascending insertion of a row index by its key. -/
def insertIdxA (keys : List (Option Val)) (i : ℕ) : List ℕ → List ℕ
  | [] => [i]
  | j :: js =>
    if cellLe (keys.getD i none) (keys.getD j none) then i :: j :: js
    else j :: insertIdxA keys i js

/-- Stable ascending insertion sort of row indices by key. -/
def sortIdxA (keys : List (Option Val)) : List ℕ → List ℕ
  | [] => []
  | i :: is => insertIdxA keys i (sortIdxA keys is)

/-- `df_dt.sort_values(dt_col)`: reorder all rows ascending by the key column,
stably. -/
def sortRowsBy (name : String) (t : Table) : Table :=
  let keys := colCells t name
  let perm := sortIdxA keys (List.range keys.length)
  ⟨t.cols.map (fun c => { c with cells := perm.map (fun i => c.cells.getD i none) })⟩

/-- A store of DataFrame references: Python names hold references, `df.copy()`
allocates a fresh table, and the column assignment of `show_time_series`
mutates the referenced table in place. -/
abbrev Store := List Table

/-- Table held at a reference (an empty table for a dangling reference). -/
def readT (s : Store) (r : ℕ) : Table := s.getD r ⟨[]⟩

/-- `df.copy()`: allocate a fresh table, returning the new store and the new
reference. -/
def allocT (s : Store) (t : Table) : Store × ℕ := (s ++ [t], s.length)

/-- Overwrite the table at a reference. -/
def writeT (s : Store) (r : ℕ) (t : Table) : Store := s.set r t

/-- Output of the Time-Series Explorer. -/
inductive TSOut where
  | noDatetime
  | noNumeric
  | chart (dtCol valCol : String) (window : ℕ) (raw : List (Option ℚ))
      (rollingTrace : Option (List (Option ℚ)))
deriving DecidableEq

/-- `show_time_series` over the store: detect datetime-like columns, copy the
frame, coerce the chosen datetime column in place on the copy, drop rows with
an unparseable timestamp, sort ascending, and plot the chosen numeric value
column with the optional rolling-mean trace. -/
def show_time_series_st (P : String → Option ℤ) (selDt selVal : List String → String)
    (window : ℕ) (s : Store) (r : ℕ) : Store × TSOut :=
  let df := readT s r
  let dts := detectDatetimeCols P df
  if dts.isEmpty then (s, TSOut.noDatetime)
  else
    let dtc := selDt dts
    let a := allocT s df
    let s1 := writeT a.1 a.2 (coerceDtCol P dtc (readT a.1 a.2))
    let dfd := sortRowsBy dtc (dropnaSubset dtc (readT s1 a.2))
    let nums := (numericView dfd).map (fun c => c.name)
    if nums.isEmpty then (s1, TSOut.noNumeric)
    else
      let valc := selVal nums
      let v := (colCells dfd valc).map numCell
      (s1, TSOut.chart dtc valc window v (tsRollingTrace v window))

/-- Summary Reporter over the store: pure read. -/
def show_overview_st (s : Store) (r : ℕ) : Store × OverviewOut :=
  (s, show_overview (readT s r))

/-- Missing-Value Reporter over the store: pure read. -/
def show_missing_st (s : Store) (r : ℕ) : Store × MissOut :=
  (s, show_missing (readT s r))

/-- Distribution Explorer over the store: the two `.copy()` calls allocate, the
source frame is only read. -/
def show_distribution_st (selHist selX selY : List String → String) (bins : ℕ)
    (s : Store) (r : ℕ) : Store × DistOut :=
  let df := readT s r
  let a1 := allocT s ⟨numericView df⟩
  let a2 := allocT a1.1 ⟨dedupFirstCols (numericView df)⟩
  (a2.1, show_distribution df selHist selX selY bins)

/-- Correlation Explorer over the store: the `.copy()` call allocates, the
source frame is only read. -/
def show_correlation_st (s : Store) (r : ℕ) : Store × CorrOut :=
  let df := readT s r
  let a := allocT s ⟨dedupFirstCols (numericView df)⟩
  (a.1, show_correlation df)

/-- Categorical Explorer over the store: the `.copy()` call allocates, the
source frame is only read. -/
def show_categorical_st (selCat : List String → String) (topN : ℕ)
    (s : Store) (r : ℕ) : Store × CatOut :=
  let df := readT s r
  let a := allocT s ⟨catView df⟩
  (a.1, show_categorical df selCat topN)

/-- Text Explorer over the store: pure read. -/
def show_text_st (selText : List String → String) (s : Store) (r : ℕ) : Store × TextOut :=
  (s, show_text_analysis (readT s r) selText)

/-! ### Supporting lemmas -/

theorem filterMap_id_map_some {α : Type} (l : List α) : (l.map some).filterMap id = l := by
  simp [List.filterMap_map]

/-! ### Lemmas on the decimal rendering -/

theorem lt_ten_pow_succ (n : ℕ) : n < 10 ^ (n + 1) :=
  lt_of_lt_of_le (Nat.lt_pow_self (by norm_num) n)
    (Nat.pow_le_pow_right (by norm_num) (by omega))

theorem decDigitsAux_fuel : ∀ (f₁ f₂ n : ℕ), n < 10 ^ (f₁ + 1) → n < 10 ^ (f₂ + 1) →
    decDigitsAux f₁ n = decDigitsAux f₂ n := by
  intro f₁
  induction f₁ with
  | zero =>
    intro f₂ n h1 _
    have hn : n < 10 := by simpa using h1
    cases f₂ <;> simp [decDigitsAux, hn]
  | succ g ih =>
    intro f₂ n h1 h2
    by_cases hn : n < 10
    · cases f₂ <;> simp [decDigitsAux, hn]
    · cases f₂ with
      | zero =>
        exfalso
        have : n < 10 := by simpa using h2
        omega
      | succ g₂ =>
        simp only [decDigitsAux, if_neg hn]
        congr 1
        apply ih
        · rw [Nat.div_lt_iff_lt_mul (by norm_num)]
          calc n < 10 ^ (g + 1 + 1) := h1
          _ = 10 ^ (g + 1) * 10 := by ring
        · rw [Nat.div_lt_iff_lt_mul (by norm_num)]
          calc n < 10 ^ (g₂ + 1 + 1) := h2
          _ = 10 ^ (g₂ + 1) * 10 := by ring

theorem decDigits_lt {n : ℕ} (h : n < 10) : decDigits n = [digitCh n] := by
  cases n with
  | zero => simp [decDigits, decDigitsAux]
  | succ m => simp [decDigits, decDigitsAux, h]

theorem decDigits_ge {n : ℕ} (h : 10 ≤ n) :
    decDigits n = decDigits (n / 10) ++ [digitCh (n % 10)] := by
  obtain ⟨m, rfl⟩ : ∃ m, n = m + 1 := ⟨n - 1, by omega⟩
  have hn : ¬ (m + 1 < 10) := by omega
  simp only [decDigits, decDigitsAux, if_neg hn]
  congr 1
  apply decDigitsAux_fuel
  · have h1 : (m + 1) / 10 ≤ m := by omega
    exact lt_of_le_of_lt h1 (lt_ten_pow_succ m)
  · exact lt_ten_pow_succ _

theorem decDigits_ne_nil (n : ℕ) : decDigits n ≠ [] := by
  by_cases h : n < 10
  · simp [decDigits_lt h]
  · simp [decDigits_ge (by omega : 10 ≤ n)]

theorem digitCh_inj {d e : ℕ} (hd : d < 10) (he : e < 10) (h : digitCh d = digitCh e) :
    d = e := by
  interval_cases d <;> interval_cases e <;> revert h <;> decide

theorem digitCh_ne_dot {d : ℕ} (hd : d < 10) : digitCh d ≠ '.' := by
  interval_cases d <;> decide

theorem dot_not_mem_decDigits (n : ℕ) : '.' ∉ decDigits n := by
  induction n using Nat.strong_induction_on with
  | _ n ih =>
    by_cases h : n < 10
    · rw [decDigits_lt h]
      intro hc
      rw [List.mem_singleton] at hc
      exact digitCh_ne_dot h hc.symm
    · rw [decDigits_ge (by omega : 10 ≤ n)]
      intro hc
      rcases List.mem_append.mp hc with h1 | h1
      · exact ih (n / 10) (by omega) h1
      · rw [List.mem_singleton] at h1
        exact digitCh_ne_dot (Nat.mod_lt n (by norm_num)) h1.symm

theorem two_le_decDigits_length {n : ℕ} (h : 10 ≤ n) : 2 ≤ (decDigits n).length := by
  rw [decDigits_ge h]
  have h1 : 1 ≤ (decDigits (n / 10)).length :=
    List.length_pos.mpr (decDigits_ne_nil (n / 10))
  simp only [List.length_append, List.length_singleton]
  omega

theorem decDigits_inj : ∀ (a b : ℕ), decDigits a = decDigits b → a = b := by
  intro a
  induction a using Nat.strong_induction_on with
  | _ a ih =>
    intro b h
    by_cases ha : a < 10 <;> by_cases hb : b < 10
    · rw [decDigits_lt ha, decDigits_lt hb] at h
      injection h with h1 _
      exact digitCh_inj ha hb h1
    · exfalso
      have hlen := congrArg List.length h
      rw [decDigits_lt ha] at hlen
      have h2 := two_le_decDigits_length (by omega : 10 ≤ b)
      simp only [List.length_singleton] at hlen
      omega
    · exfalso
      have hlen := congrArg List.length h
      rw [decDigits_lt hb] at hlen
      have h2 := two_le_decDigits_length (by omega : 10 ≤ a)
      simp only [List.length_singleton] at hlen
      omega
    · rw [decDigits_ge (by omega : 10 ≤ a), decDigits_ge (by omega : 10 ≤ b)] at h
      obtain ⟨h3, h4⟩ := List.append_inj' h rfl
      injection h4 with h4a _
      have h5 : a % 10 = b % 10 :=
        digitCh_inj (Nat.mod_lt _ (by norm_num)) (Nat.mod_lt _ (by norm_num)) h4a
      have h6 : a / 10 = b / 10 := ih (a / 10) (by omega) (b / 10) h3
      omega

theorem decStr_inj {a b : ℕ} (h : decStr a = decStr b) : a = b :=
  decDigits_inj a b (congrArg String.data h)

theorem one_le_decStr_length (n : ℕ) : 1 ≤ (decStr n).length :=
  List.length_pos.mpr (decDigits_ne_nil n)

/-! ### Lemmas on the count map and the dedup loop -/

theorem cnt_cons (k : String) (v : ℕ) (m : List (String × ℕ)) (x : String) :
    cnt ((k, v) :: m) x = if k = x then v else cnt m x := by
  unfold cnt
  by_cases h : k = x
  · rw [List.find?_cons_of_pos _ (by simp [h]), if_pos h]
  · rw [List.find?_cons_of_neg _ (by simp [h]), if_neg h]

theorem keyLen_le_maxKeyLen {p : String × ℕ} {m : List (String × ℕ)} (h : p ∈ m) :
    p.1.length ≤ maxKeyLen m := by
  induction m with
  | nil => cases h
  | cons q qs ih =>
    rcases List.mem_cons.mp h with rfl | h
    · exact le_max_left _ _
    · exact le_trans (ih h) (le_max_right _ _)

theorem cnt_pos_keyLen {m : List (String × ℕ)} {x : String} (h : cnt m x ≠ 0) :
    x.length ≤ maxKeyLen m := by
  unfold cnt at h
  cases hfind : m.find? (fun p => p.1 == x) with
  | none => rw [hfind] at h; exact absurd rfl h
  | some p =>
    have hmem := List.mem_of_find?_eq_some hfind
    have hx : p.1 = x := by simpa using List.find?_some hfind
    rw [← hx]
    exact keyLen_le_maxKeyLen hmem

theorem maxKeyLen_cons (k : String) (v : ℕ) (m : List (String × ℕ)) :
    maxKeyLen ((k, v) :: m) = max k.length (maxKeyLen m) := rfl

theorem cnt_le_cons {m : List (String × ℕ)} {k : String} {v : ℕ} (hv : cnt m k ≤ v)
    (x : String) : cnt m x ≤ cnt ((k, v) :: m) x := by
  rw [cnt_cons]
  split
  · next h => rw [← h]; exact hv
  · exact le_refl _

theorem cnt_le_dedupGo : ∀ (fuel : ℕ) (m : List (String × ℕ)) (col x : String),
    cnt m x ≤ cnt (dedupGo fuel m col).2 x := by
  intro fuel
  induction fuel with
  | zero =>
    intro m col x
    unfold dedupGo
    split
    · next h => exact cnt_le_cons (by omega) x
    · exact le_refl _
  | succ f ih =>
    intro m col x
    unfold dedupGo
    split
    · next h => exact cnt_le_cons (by omega) x
    · next h => exact le_trans (cnt_le_cons (by omega) x) (ih _ _ x)

theorem dedupGo_fresh : ∀ (fuel : ℕ) (m : List (String × ℕ)) (col : String),
    maxKeyLen m + 1 ≤ col.length + fuel →
    cnt m (dedupGo fuel m col).1 = 0 ∧
    cnt (dedupGo fuel m col).2 (dedupGo fuel m col).1 = 1 := by
  intro fuel
  induction fuel with
  | zero =>
    intro m col hf
    have h0 : cnt m col = 0 := by
      by_contra h
      have := cnt_pos_keyLen h
      omega
    unfold dedupGo
    rw [if_pos h0]
    exact ⟨h0, by rw [cnt_cons, if_pos rfl]⟩
  | succ f ih =>
    intro m col hf
    by_cases h0 : cnt m col = 0
    · unfold dedupGo
      rw [if_pos h0]
      exact ⟨h0, by rw [cnt_cons, if_pos rfl]⟩
    · have hkey : col.length ≤ maxKeyLen m := cnt_pos_keyLen h0
      unfold dedupGo
      rw [if_neg h0]
      have hmax : maxKeyLen ((col, cnt m col + 1) :: m) = maxKeyLen m := by
        rw [maxKeyLen_cons]
        exact max_eq_right hkey
      have hlen : col.length + 2 ≤ (col ++ "." ++ decStr (cnt m col)).length := by
        rw [String.length_append, String.length_append]
        have h1 := one_le_decStr_length (cnt m col)
        have h2 : ("." : String).length = 1 := rfl
        omega
      have hf1 : maxKeyLen ((col, cnt m col + 1) :: m) + 1 ≤
          (col ++ "." ++ decStr (cnt m col)).length + f := by
        rw [hmax]; omega
      have hrec := ih ((col, cnt m col + 1) :: m) (col ++ "." ++ decStr (cnt m col)) hf1
      refine ⟨?_, hrec.2⟩
      have hmono : cnt m (dedupGo f ((col, cnt m col + 1) :: m)
            (col ++ "." ++ decStr (cnt m col))).1 ≤
          cnt ((col, cnt m col + 1) :: m) (dedupGo f ((col, cnt m col + 1) :: m)
            (col ++ "." ++ decStr (cnt m col))).1 :=
        cnt_le_cons (by omega) _
      omega

theorem dedupOne_fresh (m : List (String × ℕ)) (col : String) :
    cnt m (dedupOne m col).1 = 0 ∧
    cnt (dedupOne m col).2 (dedupOne m col).1 = 1 :=
  dedupGo_fresh (maxKeyLen m + 1) m col (by omega)

theorem cnt_le_dedupOne (m : List (String × ℕ)) (col x : String) :
    cnt m x ≤ cnt (dedupOne m col).2 x :=
  cnt_le_dedupGo _ m col x

theorem dedupAux_length : ∀ (names : List String) (m : List (String × ℕ)),
    (dedupAux names m).length = names.length := by
  intro names
  induction names with
  | nil => intro m; rfl
  | cons n rest ih => intro m; simp [dedupAux, ih]

theorem dedupAux_nodup : ∀ (names : List String) (m : List (String × ℕ))
    (prev : List String), prev.Nodup → (∀ x ∈ prev, 1 ≤ cnt m x) →
    (prev ++ dedupAux names m).Nodup := by
  intro names
  induction names with
  | nil =>
    intro m prev h1 _
    simpa [dedupAux] using h1
  | cons n rest ih =>
    intro m prev h1 h2
    have hfresh := dedupOne_fresh m n
    have heq : prev ++ dedupAux (n :: rest) m =
        (prev ++ [(dedupOne m n).1]) ++ dedupAux rest (dedupOne m n).2 := by
      simp [dedupAux]
    rw [heq]
    apply ih
    · refine List.Nodup.append h1 (List.nodup_singleton _) ?_
      intro x hx hy
      rw [List.mem_singleton] at hy
      subst hy
      have := h2 _ hx
      omega
    · intro x hx
      rcases List.mem_append.mp hx with h | h
      · exact le_trans (h2 x h) (cnt_le_dedupOne m n x)
      · rw [List.mem_singleton] at h
        subst h
        omega

theorem dedupNames_nodup (names : List String) : (dedupNames names).Nodup := by
  have := dedupAux_nodup names [] [] List.nodup_nil (by intro x hx; cases hx)
  simpa [dedupNames] using this

theorem dedupNames_length (names : List String) :
    (dedupNames names).length = names.length := dedupAux_length names []

/-! ### Lemmas on dots, splitting, and the reference count function -/

theorem string_eq_of_data {a b : String} (h : a.data = b.data) : a = b :=
  congrArg String.mk h

theorem hasDot_mem {s : String} (h : hasDot s = true) : '.' ∈ s.data := by
  simpa [hasDot] using h

theorem not_hasDot_forall {s : String} (h : hasDot s = false) : ∀ c ∈ s.data, c ≠ '.' := by
  intro c hc he
  subst he
  have : hasDot s = true := by simpa [hasDot] using hc
  rw [this] at h
  cases h

theorem dotSplit_append : ∀ (l : List Char), (∀ c ∈ l, c ≠ '.') → ∀ (r : List Char),
    dotSplit (l ++ '.' :: r) = (l, r) := by
  intro l
  induction l with
  | nil =>
    intro _ r
    simp [dotSplit]
  | cons c cs ih =>
    intro hl r
    have hc : c ≠ '.' := hl c (List.mem_cons_self c cs)
    have hcs : ∀ x ∈ cs, x ≠ '.' := fun x hx => hl x (List.mem_cons_of_mem c hx)
    simp [dotSplit, hc, ih hcs r]

theorem dotSplit_reconstruct : ∀ (l : List Char), '.' ∈ l →
    l = (dotSplit l).1 ++ '.' :: (dotSplit l).2 := by
  intro l
  induction l with
  | nil => intro h; cases h
  | cons c cs ih =>
    intro h
    by_cases hc : c = '.'
    · subst hc
      simp [dotSplit]
    · have h2 : '.' ∈ cs := by
        rcases List.mem_cons.mp h with h1 | h1
        · exact absurd h1.symm hc
        · exact h1
      simp only [dotSplit, if_neg hc]
      calc c :: cs = c :: ((dotSplit cs).1 ++ '.' :: (dotSplit cs).2) := by rw [← ih h2]
      _ = (c :: (dotSplit cs).1) ++ '.' :: (dotSplit cs).2 := rfl

theorem gen_data (n : String) (c : ℕ) :
    (n ++ "." ++ decStr c).data = n.data ++ '.' :: decDigits c := by
  rw [String.data_append, String.data_append]
  simp [decStr]

theorem hasDot_gen (n : String) (c : ℕ) : hasDot (n ++ "." ++ decStr c) = true := by
  have h : '.' ∈ (n ++ "." ++ decStr c).data := by
    rw [gen_data]
    exact List.mem_append_right _ (List.mem_cons_self _ _)
  unfold hasDot
  simp [h]

theorem dotfree_ne_gen {n : String} (hn : hasDot n = false) (b : String) (c : ℕ) :
    n ≠ b ++ "." ++ decStr c := by
  intro he
  rw [he, hasDot_gen] at hn
  cases hn

theorem refCnt_dotfree {x : String} (h : hasDot x = false) (seen : List String) :
    refCnt seen x = seen.count x := by
  unfold refCnt
  rw [if_neg (by simp [h])]

theorem count_append_one {α : Type} [DecidableEq α] (l : List α) (n x : α) :
    (l ++ [n]).count x = l.count x + (if n = x then 1 else 0) := by
  rw [List.count_append]
  by_cases h : n = x <;> simp [h, List.count_singleton]

theorem refCnt_gen {n : String} (hn : hasDot n = false) (seen : List String) (c : ℕ) :
    refCnt seen (n ++ "." ++ decStr c) =
      if 1 ≤ c ∧ c < seen.count n then 1 else 0 := by
  unfold refCnt
  rw [if_pos (hasDot_gen n c)]
  have hsplit : dotSplit ((n ++ "." ++ decStr c).data) = (n.data, decDigits c) := by
    rw [gen_data]
    exact dotSplit_append n.data (not_hasDot_forall hn) (decDigits c)
  rw [hsplit]
  dsimp only
  rw [show String.mk n.data = n from rfl]
  by_cases hc : 1 ≤ c ∧ c < seen.count n
  · rw [if_pos hc, if_pos]
    rw [List.any_eq_true]
    refine ⟨c, List.mem_range.mpr hc.2, ?_⟩
    simp only [Bool.and_eq_true, bne_iff_ne, ne_eq, beq_iff_eq]
    exact ⟨by omega, rfl⟩
  · rw [if_neg hc, if_neg]
    rw [List.any_eq_true]
    rintro ⟨j, hj, hp⟩
    rw [List.mem_range] at hj
    simp only [Bool.and_eq_true, bne_iff_ne, ne_eq, beq_iff_eq] at hp
    obtain ⟨hj0, hdig⟩ := hp
    have hcj : c = j := decDigits_inj c j hdig
    exact hc ⟨by omega, by omega⟩

theorem refCnt_append_of_ne (seen : List String) (n x : String) (_hn : hasDot n = false)
    (hx : x ≠ n) (hxgen : x ≠ n ++ "." ++ decStr (seen.count n) ∨ seen.count n = 0) :
    refCnt (seen ++ [n]) x = refCnt seen x := by
  unfold refCnt
  by_cases hd : hasDot x
  · rw [if_pos hd, if_pos hd]
    by_cases hb : String.mk (dotSplit x.data).1 = n
    · rw [hb, count_append_one, if_pos rfl]
      have hpc : ((seen.count n) != 0 &&
          ((dotSplit x.data).2 == (decStr (seen.count n)).data)) = false := by
        by_cases h0 : seen.count n = 0
        · simp [h0]
        · rcases hxgen with hxg | h0'
          · have hrest : ((dotSplit x.data).2 == (decStr (seen.count n)).data) = false := by
              rw [beq_eq_false_iff_ne]
              intro hr
              apply hxg
              apply string_eq_of_data
              rw [gen_data]
              have h1 : (dotSplit x.data).1 = n.data := congrArg String.data hb
              calc x.data = (dotSplit x.data).1 ++ '.' :: (dotSplit x.data).2 :=
                    dotSplit_reconstruct x.data (hasDot_mem hd)
              _ = n.data ++ '.' :: decDigits (seen.count n) := by
                    rw [h1, hr]; rfl
            rw [hrest, Bool.and_false]
          · exact absurd h0' h0
      have hran : List.range (seen.count n + 1) =
          List.range (seen.count n) ++ [seen.count n] := by
        simp [List.range_succ]
      rw [hran, List.any_append]
      simp [hpc]
    · rw [count_append_one,
        if_neg (show ¬ n = String.mk (dotSplit x.data).1 from fun he => hb he.symm),
        Nat.add_zero]
  · rw [if_neg hd, if_neg hd, count_append_one,
      if_neg (show ¬ n = x from fun he => hx he.symm), Nat.add_zero]

theorem dedupGo_of_cnt_zero (fuel : ℕ) (m : List (String × ℕ)) (col : String)
    (h : cnt m col = 0) : dedupGo fuel m col = (col, (col, 1) :: m) := by
  cases fuel <;> simp [dedupGo, h]

theorem dedup_spec_aux : ∀ (names : List String) (m : List (String × ℕ))
    (seen : List String), (∀ x ∈ names, hasDot x = false) →
    (∀ x, cnt m x = refCnt seen x) →
    dedupAux names m = specDedupAux names seen := by
  intro names
  induction names with
  | nil => intro m seen _ _; rfl
  | cons n rest ih =>
    intro m seen hnames hinv
    have hn : hasDot n = false := hnames n (List.mem_cons_self n rest)
    have hrest : ∀ x ∈ rest, hasDot x = false :=
      fun x hx => hnames x (List.mem_cons_of_mem n hx)
    have hc : cnt m n = seen.count n := by rw [hinv n, refCnt_dotfree hn]
    by_cases h0 : seen.count n = 0
    · have hz : cnt m n = 0 := by omega
      have hone : dedupOne m n = (n, (n, 1) :: m) := dedupGo_of_cnt_zero _ m n hz
      show (dedupOne m n).1 :: dedupAux rest (dedupOne m n).2 = _
      rw [hone]
      dsimp only
      unfold specDedupAux
      rw [if_pos h0]
      congr 1
      apply ih _ _ hrest
      intro x
      rw [cnt_cons]
      by_cases hx : n = x
      · subst hx
        rw [if_pos rfl, refCnt_dotfree hn, count_append_one, if_pos rfl]
        omega
      · rw [if_neg hx, hinv x,
          refCnt_append_of_ne seen n x hn (fun he => hx he.symm) (Or.inr h0)]
    · have hgenne : n ≠ n ++ "." ++ decStr (seen.count n) := dotfree_ne_gen hn n _
      have hgz : cnt ((n, seen.count n + 1) :: m) (n ++ "." ++ decStr (seen.count n)) = 0 := by
        rw [cnt_cons, if_neg hgenne, hinv, refCnt_gen hn, if_neg (by omega)]
      have hone : dedupOne m n =
          (n ++ "." ++ decStr (seen.count n),
           (n ++ "." ++ decStr (seen.count n), 1) :: (n, seen.count n + 1) :: m) := by
        unfold dedupOne
        simp only [dedupGo]
        rw [if_neg (show ¬ cnt m n = 0 by omega), hc]
        exact dedupGo_of_cnt_zero _ _ _ hgz
      show (dedupOne m n).1 :: dedupAux rest (dedupOne m n).2 = _
      rw [hone]
      dsimp only
      unfold specDedupAux
      rw [if_neg h0]
      congr 1
      apply ih _ _ hrest
      intro x
      rw [cnt_cons]
      by_cases hx1 : n ++ "." ++ decStr (seen.count n) = x
      · subst hx1
        rw [if_pos rfl, refCnt_gen hn, count_append_one, if_pos rfl,
          if_pos ⟨by omega, by omega⟩]
      · rw [if_neg hx1, cnt_cons]
        by_cases hx2 : n = x
        · subst hx2
          rw [if_pos rfl, refCnt_dotfree hn, count_append_one, if_pos rfl]
        · rw [if_neg hx2, hinv x,
            refCnt_append_of_ne seen n x hn (fun he => hx2 he.symm)
              (Or.inl (fun he => hx1 he.symm))]

theorem dedupNames_eq_specDedup {names : List String}
    (h : ∀ x ∈ names, hasDot x = false) : dedupNames names = specDedup names := by
  apply dedup_spec_aux names [] [] h
  intro x
  unfold cnt refCnt
  simp

theorem zip_snd_map : ∀ (l1 : List Column) (l2 : List String), l1.length = l2.length →
    ((l1.zip l2).map (fun p => ({ p.1 with name := p.2 } : Column))).map
      (fun c => c.name) = l2 := by
  intro l1
  induction l1 with
  | nil =>
    intro l2 h
    cases l2 with
    | nil => rfl
    | cons n ns => simp at h
  | cons c cs ih =>
    intro l2 h
    cases l2 with
    | nil => simp at h
    | cons n ns => simp [ih ns (by simpa using h)]

theorem applyDedup_names (t : Table) :
    (applyDedup t).cols.map (fun c => c.name) =
      dedupNames (t.cols.map (fun c => c.name)) := by
  unfold applyDedup
  exact zip_snd_map t.cols _ (by rw [dedupNames_length, List.length_map])

theorem readT_append (s : Store) (t : Table) (r : ℕ) (h : r < s.length) :
    readT (s ++ [t]) r = readT s r := by
  unfold readT
  rw [List.getD_eq_getElem?_getD, List.getD_eq_getElem?_getD, List.getElem?_append,
    if_pos h]

theorem readT_set_append (s : Store) (t t' : Table) (r : ℕ) (h : r < s.length) :
    readT ((s ++ [t]).set s.length t') r = readT s r := by
  unfold readT
  rw [List.getD_eq_getElem?_getD, List.getD_eq_getElem?_getD,
    List.getElem?_set_ne (by omega), List.getElem?_append, if_pos h]

/-! ### C4: encoding fallback of the loader -/

/-- C4: `load_data` parses with the default encoding first; exactly when that
attempt fails it retries once with Latin-1; when both attempts fail the load
fails as `UnparseableInput`, and the error branch carries no table. -/
theorem load_data_fallback (d l : Option Table) :
    (∀ t, d = some t → load_data d l = Except.ok (applyDedup t)) ∧
    (d = none → ∀ t, l = some t → load_data d l = Except.ok (applyDedup t)) ∧
    (d = none → l = none → load_data d l = Except.error LoadError.unparseableInput) := by
  refine ⟨?_, ?_, ?_⟩
  · rintro t rfl; rfl
  · rintro rfl t rfl; rfl
  · rintro rfl rfl; rfl

/-- Witness for C4 at concrete attempts. -/
theorem load_data_fallback_witness :
    load_data none none = Except.error LoadError.unparseableInput ∧
    load_data (some ⟨[]⟩) none = Except.ok (applyDedup ⟨[]⟩) ∧
    load_data none (some ⟨[]⟩) = Except.ok (applyDedup ⟨[]⟩) :=
  ⟨(load_data_fallback none none).2.2 rfl rfl,
   (load_data_fallback (some ⟨[]⟩) none).1 ⟨[]⟩ rfl,
   (load_data_fallback none (some ⟨[]⟩)).2.1 rfl ⟨[]⟩ rfl⟩

/-! ### C8: zero numeric columns -/

/-- C8: with zero numeric columns the Summary Reporter produces the
"no numerical columns" branch instead of descriptive statistics, and the
Distribution Explorer reports nothing to plot and produces no chart; both
components return normally. -/
theorem no_numeric_columns_reported (t : Table) (h : numericView t = []) :
    (show_overview t).numericStats = none ∧
    ∀ selHist selX selY bins,
      show_distribution t selHist selX selY bins = DistOut.noNumericMsg := by
  constructor
  · simp [show_overview, h, colsEmpty]
  · intro selHist selX selY bins
    simp [show_distribution, h, dedupFirstCols, colsEmpty]

/-- Witness for C8 on a table with a single object column. -/
theorem no_numeric_columns_reported_witness :
    numericView ⟨[⟨"c", Dtype.object, [some (Val.str "x")]⟩]⟩ = [] ∧
    (show_overview ⟨[⟨"c", Dtype.object, [some (Val.str "x")]⟩]⟩).numericStats = none ∧
    show_distribution ⟨[⟨"c", Dtype.object, [some (Val.str "x")]⟩]⟩
      (fun _ => "c") (fun _ => "c") (fun _ => "c") 30 = DistOut.noNumericMsg := by
  have h : numericView ⟨[⟨"c", Dtype.object, [some (Val.str "x")]⟩]⟩ = [] := by decide
  have := no_numeric_columns_reported ⟨[⟨"c", Dtype.object, [some (Val.str "x")]⟩]⟩ h
  exact ⟨h, this.1, this.2 (fun _ => "c") (fun _ => "c") (fun _ => "c") 30⟩

/-! ### C10: all-missing columns count as datetime-like -/

/-- C10: a column whose cells are all missing yields an empty non-missing
sample, the sample parse succeeds vacuously, so the column is marked
datetime-like and offered as a datetime choice. -/
theorem all_missing_datetime_like (P : String → Option ℤ) (t : Table) (c : Column)
    (hc : c ∈ t.cols) (h : ∀ x ∈ c.cells, x = none) :
    (c.cells.filterMap id = []) ∧ isDatetimeLike P c = true ∧
    c.name ∈ detectDatetimeCols P t := by
  have hnil : c.cells.filterMap id = [] := by
    rw [List.filterMap_eq_nil_iff]
    intro a ha
    rw [h a ha]; rfl
  have hdl : isDatetimeLike P c = true := by
    unfold isDatetimeLike
    simp [hnil]
  refine ⟨hnil, hdl, ?_⟩
  unfold detectDatetimeCols
  exact List.mem_map_of_mem _ (List.mem_filter.mpr ⟨hc, hdl⟩)

/-- Witness for C10 on a one-column table of missing cells. -/
theorem all_missing_datetime_like_witness :
    (∀ x ∈ ([none, none] : List (Option Val)), x = none) ∧
    isDatetimeLike (fun _ => none) ⟨"m", Dtype.object, [none, none]⟩ = true ∧
    "m" ∈ detectDatetimeCols (fun _ => none) ⟨[⟨"m", Dtype.object, [none, none]⟩]⟩ := by
  have h : ∀ x ∈ ([none, none] : List (Option Val)), x = none := by decide
  have := all_missing_datetime_like (fun _ => none) ⟨[⟨"m", Dtype.object, [none, none]⟩]⟩
    ⟨"m", Dtype.object, [none, none]⟩ (by decide) h
  exact ⟨h, this.2.1, this.2.2⟩

/-! ### C9: the datetime detection rule -/

/-- C9: a column is marked datetime-like exactly when its declared dtype is the
timestamp dtype or all of its first up-to-20 non-missing values, coerced to
text, parse as timestamps; when no column qualifies the Time-Series Explorer
reports none detected and produces no chart. -/
theorem datetime_detection_spec (P : String → Option ℤ) (c : Column) :
    (isDatetimeLike P c = true ↔
      (c.dtype = Dtype.datetime ∨
        ∀ s ∈ ((c.cells.filterMap id).map toStr).take 20, (P s).isSome)) ∧
    (∀ selDt selVal window s r,
      detectDatetimeCols P (readT s r) = [] →
      show_time_series_st P selDt selVal window s r = (s, TSOut.noDatetime)) := by
  constructor
  · unfold isDatetimeLike
    simp
  · intro selDt selVal window s r hdet
    unfold show_time_series_st
    simp [hdet]

/-- Witness for C9: a dtype-datetime column and the empty-store run. -/
theorem datetime_detection_spec_witness :
    (isDatetimeLike (fun _ => none) ⟨"d", Dtype.datetime, [some (Val.str "z")]⟩ = true) ∧
    detectDatetimeCols (fun _ => none) (readT [] 0) = [] ∧
    show_time_series_st (fun _ => none) (fun _ => "d") (fun _ => "d") 7 [] 0 =
      ([], TSOut.noDatetime) := by
  have h1 := (datetime_detection_spec (fun _ => none)
    ⟨"d", Dtype.datetime, [some (Val.str "z")]⟩).1.mpr (Or.inl rfl)
  have hdet : detectDatetimeCols (fun (_ : String) => (none : Option ℤ)) (readT [] 0) = [] := by
    decide
  have h2 := (datetime_detection_spec (fun _ => none)
    ⟨"d", Dtype.datetime, [some (Val.str "z")]⟩).2 (fun _ => "d") (fun _ => "d") 7 [] 0 hdet
  exact ⟨h1, hdet, h2⟩

/-! ### C3: the rolling-mean trace -/

/-- C3: the rolling-mean trace is added exactly when the non-null count of the
value column reaches the window; with minimum-period 1 the entry at row `i`
(0-based) is the mean of the trailing `min (i+1) w` values whenever the column
has no missing value; and the worked example `[1,2,3,4,5]`, `W = 3` yields
`[1, 3/2, 2, 3, 4]`. -/
theorem rolling_mean_spec (v : List (Option ℚ)) (w : ℕ) (hw : 1 ≤ w) :
    ((tsRollingTrace v w).isSome ↔ w ≤ nonnullCount v) ∧
    (∀ vs : List ℚ, v = vs.map some → ∀ i, i < vs.length →
      ((vs.take (i + 1)).drop (i + 1 - w)).length = min (i + 1) w ∧
      (rollingMeanList v w)[i]? =
        some (some (((vs.take (i + 1)).drop (i + 1 - w)).sum /
          ((((vs.take (i + 1)).drop (i + 1 - w)).length : ℚ)))) ) ∧
    rollingMeanList [some 1, some 2, some 3, some 4, some 5] 3 =
      [some 1, some (3/2 : ℚ), some 2, some 3, some 4] := by
  refine ⟨?_, ?_, ?_⟩
  · unfold tsRollingTrace
    split <;> simp_all
  · rintro vs rfl i hi
    have hlen : ((vs.take (i + 1)).drop (i + 1 - w)).length = min (i + 1) w := by
      rw [List.length_drop, List.length_take]
      omega
    refine ⟨hlen, ?_⟩
    have hwin : ((vs.map some).take (i + 1)).drop (i + 1 - w) =
        ((vs.take (i + 1)).drop (i + 1 - w)).map some := by
      rw [← List.map_take, ← List.map_drop]
    have hobs : (((vs.map some).take (i + 1)).drop (i + 1 - w)).filterMap id =
        (vs.take (i + 1)).drop (i + 1 - w) := by
      rw [hwin, filterMap_id_map_some]
    have hi2 : i < (vs.map some).length := by simpa using hi
    unfold rollingMeanList
    simp only [List.getElem?_map, List.getElem?_range hi2, Option.map_some']
    simp only [hobs]
    rw [if_neg (by rw [hlen]; omega)]
  · simp [rollingMeanList, List.range_succ, List.filterMap_cons]
    norm_num

/-- Witness for C3 at the worked example. -/
theorem rolling_mean_spec_witness :
    (1 : ℕ) ≤ 3 ∧
    ((tsRollingTrace [some 1, some 2, some 3, some 4, some 5] 3).isSome ↔
      3 ≤ nonnullCount [some 1, some 2, some 3, some 4, some 5]) ∧
    rollingMeanList [some 1, some 2, some 3, some 4, some 5] 3 =
      [some 1, some (3/2 : ℚ), some 2, some 3, some 4] :=
  ⟨by decide,
   (rolling_mean_spec [some 1, some 2, some 3, some 4, some 5] 3 (by decide)).1,
   (rolling_mean_spec [some 1, some 2, some 3, some 4, some 5] 3 (by decide)).2.2⟩

/-! ### C6: the correlation gate -/

/-- C6: with fewer than two distinct-named numeric columns the Correlation
Explorer reports insufficiency and produces no matrix; with at least two it
computes the pairwise correlation matrix over exactly those columns. -/
theorem correlation_gate (t : Table) :
    (show_correlation t = CorrOut.insufficient ↔
      (dedupFirstCols (numericView t)).length < 2) ∧
    (2 ≤ (dedupFirstCols (numericView t)).length →
      show_correlation t = CorrOut.matrix
        ((dedupFirstCols (numericView t)).map (fun c => c.name))
        ((dedupFirstCols (numericView t)).map (fun ci =>
          (dedupFirstCols (numericView t)).map (fun cj =>
            pearsonMoments (numCells ci) (numCells cj))))) := by
  unfold show_correlation
  constructor
  · by_cases h : (dedupFirstCols (numericView t)).length < 2 <;> simp [h]
  · intro h
    rw [if_neg (by omega)]

/-- Witness for C6: a two-numeric-column table takes the matrix branch and a
one-numeric-column table reports insufficiency. -/
theorem correlation_gate_witness :
    2 ≤ (dedupFirstCols (numericView ⟨[⟨"x", Dtype.int, [some (Val.num 1)]⟩,
      ⟨"y", Dtype.int, [some (Val.num 2)]⟩]⟩)).length ∧
    show_correlation ⟨[⟨"x", Dtype.int, [some (Val.num 1)]⟩,
      ⟨"y", Dtype.int, [some (Val.num 2)]⟩]⟩ =
      CorrOut.matrix
        ((dedupFirstCols (numericView ⟨[⟨"x", Dtype.int, [some (Val.num 1)]⟩,
          ⟨"y", Dtype.int, [some (Val.num 2)]⟩]⟩)).map (fun c => c.name))
        ((dedupFirstCols (numericView ⟨[⟨"x", Dtype.int, [some (Val.num 1)]⟩,
          ⟨"y", Dtype.int, [some (Val.num 2)]⟩]⟩)).map (fun ci =>
          (dedupFirstCols (numericView ⟨[⟨"x", Dtype.int, [some (Val.num 1)]⟩,
            ⟨"y", Dtype.int, [some (Val.num 2)]⟩]⟩)).map (fun cj =>
            pearsonMoments (numCells ci) (numCells cj)))) ∧
    show_correlation ⟨[⟨"x", Dtype.int, [some (Val.num 1)]⟩]⟩ = CorrOut.insufficient := by
  have h2 : 2 ≤ (dedupFirstCols (numericView ⟨[⟨"x", Dtype.int, [some (Val.num 1)]⟩,
      ⟨"y", Dtype.int, [some (Val.num 2)]⟩]⟩)).length := by
    decide
  refine ⟨h2, (correlation_gate _).2 h2, (correlation_gate _).1.mpr ?_⟩
  decide

/-! ### C5: components do not mutate the table -/

/-- C5: under the store semantics every component leaves the table at the input
reference unchanged; in particular the Time-Series Explorer performs its
in-place datetime coercion only on the freshly allocated copy. -/
theorem components_leave_table_unchanged (P : String → Option ℤ)
    (selDt selVal selHist selX selY selCat selText : List String → String)
    (bins topN window : ℕ) (s : Store) (r : ℕ) (hr : r < s.length) :
    readT (show_overview_st s r).1 r = readT s r ∧
    readT (show_missing_st s r).1 r = readT s r ∧
    readT (show_distribution_st selHist selX selY bins s r).1 r = readT s r ∧
    readT (show_correlation_st s r).1 r = readT s r ∧
    readT (show_time_series_st P selDt selVal window s r).1 r = readT s r ∧
    readT (show_categorical_st selCat topN s r).1 r = readT s r ∧
    readT (show_text_st selText s r).1 r = readT s r := by
  refine ⟨rfl, rfl, ?_, ?_, ?_, ?_, rfl⟩
  · unfold show_distribution_st allocT
    dsimp only
    rw [readT_append _ _ _ (by simp only [List.length_append, List.length_singleton]; omega),
      readT_append _ _ _ hr]
  · unfold show_correlation_st allocT
    dsimp only
    rw [readT_append _ _ _ hr]
  · unfold show_time_series_st allocT writeT
    dsimp only
    split
    · rfl
    · split
      · exact readT_set_append s _ _ r hr
      · exact readT_set_append s _ _ r hr
  · unfold show_categorical_st allocT
    dsimp only
    rw [readT_append _ _ _ hr]

/-- Witness for C5 on a singleton store. -/
theorem components_leave_table_unchanged_witness :
    (0 : ℕ) < ([⟨[]⟩] : Store).length ∧
    readT (show_time_series_st (fun _ => none) (fun _ => "") (fun _ => "") 7 [⟨[]⟩] 0).1 0 =
      readT [⟨[]⟩] 0 ∧
    readT (show_distribution_st (fun _ => "") (fun _ => "") (fun _ => "") 30 [⟨[]⟩] 0).1 0 =
      readT [⟨[]⟩] 0 :=
  ⟨by decide,
   (components_leave_table_unchanged (fun _ => none) (fun _ => "") (fun _ => "")
     (fun _ => "") (fun _ => "") (fun _ => "") (fun _ => "") (fun _ => "")
     30 10 7 [⟨[]⟩] 0 (by decide)).2.2.2.2.1,
   (components_leave_table_unchanged (fun _ => none) (fun _ => "") (fun _ => "")
     (fun _ => "") (fun _ => "") (fun _ => "") (fun _ => "") (fun _ => "")
     30 10 7 [⟨[]⟩] 0 (by decide)).2.2.1⟩

/-! ### C1: text tokenization -/

theorem tokenize_eq_amended (s : String) : tokenize s = claimTokensAmended s := by
  unfold tokenize claimTokensAmended
  induction splitWs s with
  | nil => rfl
  | cons w ws ih =>
    by_cases h : w.length ≤ 2
    · have h1 : ¬ (2 < w.length) := by omega
      simp [List.filter_cons, List.filterMap_cons, h, h1, ih]
    · have h1 : 2 < w.length := by omega
      simp [List.filter_cons, List.filterMap_cons, h, h1, ih]

/-- C1 counterexample: on the sample "is." (built by the Text Explorer from a
one-cell column) the code keeps the token "is", because the length filter
applies to the raw token "is." before stripping, while the claim's pipeline
(lower-case, strip, then discard length ≤ 2) discards it. -/
theorem text_tokens_counterexample :
    buildSample [some (Val.str "is.")] = "is." ∧
    tokenize "is." = ["is"] ∧
    claimTokens "is." = [] ∧
    ¬ tokenize "is." = claimTokens "is." := by
  refine ⟨by decide, by decide, by decide, by decide⟩

/-- C1 amended: the token list equals splitting the sample on whitespace,
discarding raw tokens of length ≤ 2, then lower-casing and stripping the
surrounding punctuation; the worked example and its frequencies are as the
claim states. -/
theorem text_tokens_amended :
    (∀ cells : List (Option Val),
      tokenize (buildSample cells) = claimTokensAmended (buildSample cells)) ∧
    (∀ s, tokenize s = claimTokensAmended s) ∧
    buildSample [some (Val.str "The cat sat on the mat")] = "The cat sat on the mat" ∧
    tokenize "The cat sat on the mat" = ["the", "cat", "sat", "the", "mat"] ∧
    rankByCount (tokenize "The cat sat on the mat") =
      [("the", 2), ("cat", 1), ("sat", 1), ("mat", 1)] :=
  ⟨fun _ => tokenize_eq_amended _, tokenize_eq_amended, by decide, by decide, by decide⟩

/-! ### C7: frequency-ranking lemmas -/

theorem insertDesc_perm {α : Type} (x : α × ℕ) (l : List (α × ℕ)) :
    (insertDesc x l).Perm (x :: l) := by
  induction l with
  | nil => exact List.Perm.refl _
  | cons y ys ih =>
    unfold insertDesc
    split
    · exact List.Perm.refl _
    · exact (ih.cons y).trans (List.Perm.swap x y ys)

theorem mem_insertDesc {α : Type} {z x : α × ℕ} {l : List (α × ℕ)} :
    z ∈ insertDesc x l ↔ z = x ∨ z ∈ l := by
  rw [(insertDesc_perm x l).mem_iff, List.mem_cons]

theorem sortDescByCount_perm {α : Type} (l : List (α × ℕ)) :
    (sortDescByCount l).Perm l := by
  induction l with
  | nil => exact List.Perm.refl _
  | cons x xs ih => exact (insertDesc_perm x _).trans (ih.cons x)

theorem insertDesc_pairwise {α : Type} {S : α × ℕ → α × ℕ → Prop} (x : α × ℕ)
    (l : List (α × ℕ))
    (hl : l.Pairwise fun a b => b.2 < a.2 ∨ (a.2 = b.2 ∧ S a b))
    (hx : ∀ y ∈ l, x.2 = y.2 → S x y) :
    (insertDesc x l).Pairwise fun a b => b.2 < a.2 ∨ (a.2 = b.2 ∧ S a b) := by
  induction l with
  | nil => simp [insertDesc]
  | cons y ys ih =>
    rcases List.pairwise_cons.mp hl with ⟨hy, hys⟩
    unfold insertDesc
    by_cases hle : y.2 ≤ x.2
    · rw [if_pos hle]
      refine List.pairwise_cons.mpr ⟨?_, hl⟩
      intro z hz
      rcases List.mem_cons.mp hz with rfl | hz
      · rcases Nat.lt_or_ge z.2 x.2 with h | h
        · exact Or.inl h
        · have he : x.2 = z.2 := by omega
          exact Or.inr ⟨he, hx _ (List.mem_cons_self z ys) he⟩
      · have hyz := hy z hz
        have hz2 : z.2 ≤ y.2 := by
          rcases hyz with h | ⟨h, _⟩ <;> omega
        rcases Nat.lt_or_ge z.2 x.2 with h | h
        · exact Or.inl h
        · have he : x.2 = z.2 := by omega
          exact Or.inr ⟨he, hx _ (List.mem_cons_of_mem _ hz) he⟩
    · rw [if_neg hle]
      refine List.pairwise_cons.mpr
        ⟨?_, ih hys (fun z hz h => hx _ (List.mem_cons_of_mem _ hz) h)⟩
      intro z hz
      rcases mem_insertDesc.mp hz with rfl | hz
      · exact Or.inl (by omega)
      · exact hy z hz

theorem sortDescByCount_pairwise {α : Type} {S : α × ℕ → α × ℕ → Prop}
    (l : List (α × ℕ)) (h : l.Pairwise fun a b => a.2 = b.2 → S a b) :
    (sortDescByCount l).Pairwise fun a b => b.2 < a.2 ∨ (a.2 = b.2 ∧ S a b) := by
  induction l with
  | nil => exact List.Pairwise.nil
  | cons x xs ih =>
    rcases List.pairwise_cons.mp h with ⟨hx, hxs⟩
    exact insertDesc_pairwise x _ (ih hxs)
      (fun y hy he => hx y ((sortDescByCount_perm xs).mem_iff.mp hy) he)

theorem pairwise_sublist_pair {α : Type} (l : List α) :
    l.Pairwise fun a b => List.Sublist [a, b] l := by
  induction l with
  | nil => exact List.Pairwise.nil
  | cons a as ih =>
    refine List.pairwise_cons.mpr
      ⟨?_, ih.imp (fun h => h.trans (List.sublist_cons_self a as))⟩
    intro b hb
    exact (List.singleton_sublist.mpr hb).cons₂ a

theorem mem_firstUniq {α : Type} [DecidableEq α] {a : α} {l : List α} :
    a ∈ firstUniq l ↔ a ∈ l := by
  induction l with
  | nil => simp [firstUniq]
  | cons x xs ih =>
    simp only [firstUniq, List.mem_cons, List.mem_filter]
    constructor
    · rintro (rfl | ⟨h, _⟩)
      · exact Or.inl rfl
      · exact Or.inr (ih.mp h)
    · rintro (rfl | h)
      · exact Or.inl rfl
      · by_cases hax : a = x
        · exact Or.inl hax
        · exact Or.inr ⟨ih.mpr h, by simp [hax]⟩

theorem rankByCount_pairwise {α : Type} [DecidableEq α] (l : List α) :
    (rankByCount l).Pairwise fun a b =>
      b.2 < a.2 ∨ (a.2 = b.2 ∧ List.Sublist [a.1, b.1] (firstUniq l)) := by
  unfold rankByCount
  apply sortDescByCount_pairwise
  unfold countsFE
  rw [List.pairwise_map]
  refine List.Pairwise.imp ?_ (pairwise_sublist_pair (firstUniq l))
  intro a b h _
  exact h

theorem mem_countsFE {α : Type} [DecidableEq α] {p : α × ℕ} {l : List α}
    (h : p ∈ countsFE l) : p.1 ∈ l ∧ p.2 = l.count p.1 := by
  unfold countsFE at h
  rcases List.mem_map.mp h with ⟨v, hv, rfl⟩
  exact ⟨mem_firstUniq.mp hv, rfl⟩

theorem countsFE_mem {α : Type} [DecidableEq α] {v : α} {l : List α} (h : v ∈ l) :
    (v, l.count v) ∈ countsFE l :=
  List.mem_map.mpr ⟨v, mem_firstUniq.mpr h, rfl⟩

/-- C7: the Categorical Explorer's top-N ranking is sorted descending by count
with ties in first-encountered order, every listed count is the value's
occurrence count, every distinct value left out of the ranking has a count not
above any listed one, the ranking has `min N distinct` entries, and the worked
example `["a","a","b","c","a","b"]`, `top_n = 2` yields `a:3, b:2`. -/
theorem categorical_ranking_spec (cells : List (Option Val)) (n : ℕ) :
    ((value_counts cells).take n).Pairwise
      (fun a b => b.2 < a.2 ∨ (a.2 = b.2 ∧
        List.Sublist [a.1, b.1] (firstUniq (cells.filterMap id)))) ∧
    (∀ p ∈ (value_counts cells).take n, p.2 = (cells.filterMap id).count p.1) ∧
    (∀ p ∈ (value_counts cells).take n, ∀ v ∈ cells.filterMap id,
      v ∉ ((value_counts cells).take n).map Prod.fst →
      (cells.filterMap id).count v ≤ p.2) ∧
    ((value_counts cells).take n).length =
      min n (firstUniq (cells.filterMap id)).length ∧
    (value_counts [some (Val.str "a"), some (Val.str "a"), some (Val.str "b"),
        some (Val.str "c"), some (Val.str "a"), some (Val.str "b")]).take 2 =
      [(Val.str "a", 3), (Val.str "b", 2)] := by
  have hperm : (value_counts cells).Perm (countsFE (cells.filterMap id)) :=
    sortDescByCount_perm _
  refine ⟨?_, ?_, ?_, ?_, by decide⟩
  · exact (rankByCount_pairwise (cells.filterMap id)).sublist
      (List.take_sublist n _)
  · intro p hp
    have hp2 : p ∈ value_counts cells := (List.take_sublist n _).mem hp
    exact (mem_countsFE (hperm.mem_iff.mp hp2)).2
  · intro p hp v hv hnot
    have hq : (v, (cells.filterMap id).count v) ∈ value_counts cells :=
      hperm.mem_iff.mpr (countsFE_mem hv)
    have hsplit : value_counts cells =
        (value_counts cells).take n ++ (value_counts cells).drop n :=
      (List.take_append_drop n _).symm
    have hqdrop : (v, (cells.filterMap id).count v) ∈ (value_counts cells).drop n := by
      rcases List.mem_append.mp (hsplit ▸ hq) with h | h
      · exact absurd (List.mem_map_of_mem Prod.fst h) hnot
      · exact h
    have hpair := rankByCount_pairwise (cells.filterMap id)
    rw [show rankByCount (cells.filterMap id) = value_counts cells from rfl,
      hsplit] at hpair
    have hcross := (List.pairwise_append.mp hpair).2.2 p hp _ hqdrop
    rcases hcross with h | ⟨h, _⟩
    · exact Nat.le_of_lt h
    · exact Nat.le_of_eq h.symm
  · rw [List.length_take, hperm.length_eq]
    unfold countsFE
    rw [List.length_map]

/-- Witness for C7: the worked ranking entry has the right membership and
count. -/
theorem categorical_ranking_spec_witness :
    ((Val.str "a", 3) ∈ (value_counts [some (Val.str "a"), some (Val.str "a"),
      some (Val.str "b"), some (Val.str "c"), some (Val.str "a"),
      some (Val.str "b")]).take 2) ∧
    (3 : ℕ) = (([some (Val.str "a"), some (Val.str "a"), some (Val.str "b"),
      some (Val.str "c"), some (Val.str "a"), some (Val.str "b")] :
        List (Option Val)).filterMap id).count (Val.str "a") :=
  ⟨by decide,
   (categorical_ranking_spec [some (Val.str "a"), some (Val.str "a"),
      some (Val.str "b"), some (Val.str "c"), some (Val.str "a"),
      some (Val.str "b")] 2).2.1 (Val.str "a", 3) (by decide)⟩

/-! ### C2: column-name deduplication -/

/-- C2 counterexample: in the header `a,a,a.1,a.1` the name "a.1" occurs twice
(k = 2) and its first occurrence is column index 2, yet the loader renames that
column to "a.1.1" rather than keeping "a.1", because the second "a" was already
renamed to "a.1". -/
theorem dedup_names_counterexample :
    (["a", "a", "a.1", "a.1"] : List String).count "a.1" = 2 ∧
    (["a", "a", "a.1", "a.1"] : List String).indexOf "a.1" = 2 ∧
    dedupNames ["a", "a", "a.1", "a.1"] = ["a", "a.1", "a.1.1", "a.1.2"] ∧
    (dedupNames ["a", "a", "a.1", "a.1"])[2]? = some "a.1.1" ∧
    ¬ (dedupNames ["a", "a", "a.1", "a.1"])[2]? = some "a.1" :=
  ⟨by decide, by decide, by decide, by decide, by decide⟩

/-- C2 amended: every successful load returns all-distinct column names; the
deduplicated header always preserves the column count (and order, being a
positional renaming); and whenever no header name collides with a generated
name — in particular whenever no header name holds a '.' — the first
occurrence of each name keeps its original name and the (j+1)-st occurrence is
renamed by appending the incrementing suffix ".j".  (When a header name does
collide with a generated name the loop re-applies the suffix rule, which can
rename the first occurrence of a later duplicate, as in the counterexample.) -/
theorem dedup_names_spec (names : List String) :
    (dedupNames names).length = names.length ∧
    (dedupNames names).Nodup ∧
    ((∀ x ∈ names, hasDot x = false) → dedupNames names = specDedup names) ∧
    (∀ d l t, load_data d l = Except.ok t →
      (t.cols.map (fun c => c.name)).Nodup) := by
  refine ⟨dedupNames_length names, dedupNames_nodup names,
    fun h => dedupNames_eq_specDedup h, ?_⟩
  intro d l t ht
  cases d with
  | some raw =>
    simp only [load_data] at ht
    injection ht with ht
    subst ht
    rw [applyDedup_names]
    exact dedupNames_nodup _
  | none =>
    cases l with
    | some raw =>
      simp only [load_data] at ht
      injection ht with ht
      subst ht
      rw [applyDedup_names]
      exact dedupNames_nodup _
    | none => simp [load_data] at ht

/-- Witness for C2 on the header `a,a,b` and a concrete load. -/
theorem dedup_names_spec_witness :
    (∀ x ∈ (["a", "a", "b"] : List String), hasDot x = false) ∧
    dedupNames ["a", "a", "b"] = specDedup ["a", "a", "b"] ∧
    dedupNames ["a", "a", "b"] = ["a", "a.1", "b"] ∧
    (dedupNames ["a", "a", "b"]).Nodup ∧
    ((applyDedup ⟨[⟨"a", Dtype.int, []⟩, ⟨"a", Dtype.int, []⟩,
        ⟨"b", Dtype.int, []⟩]⟩).cols.map (fun c => c.name)).Nodup :=
  ⟨by decide, (dedup_names_spec ["a", "a", "b"]).2.2.1 (by decide), by decide,
   (dedup_names_spec ["a", "a", "b"]).2.1,
   (dedup_names_spec ["a", "a", "b"]).2.2.2
     (some ⟨[⟨"a", Dtype.int, []⟩, ⟨"a", Dtype.int, []⟩, ⟨"b", Dtype.int, []⟩]⟩)
     none _ rfl⟩

end HarmWatch
